import Mathlib

/-!
Verification model of `src/lib/util/log.js`, a hierarchical leveled logger.

The JavaScript source is shallowly embedded: JS values that can reach the
logger's API are modelled by `JRef` (primitives inline, objects as heap
references), the mutable shared level table and the mutable components live
in an explicit `Heap`, and every fallible operation returns `Except JsError`.
JS numbers are modelled as integers plus `NaN`; the string-to-number
coercions (`isNaN`, `parseInt`) are modelled on decimal integer literals,
which is the fragment the logger's API exercises.
-/

deriving instance DecidableEq for Except

/-- Severity of a JS exception surfaced by the logger: `invalidArgument`
models `E.INVALID_ARGUMENT.clone(message)` from the error taxonomy,
`typeError` models a built-in `TypeError` (for example from calling
`toUpperCase` on a non-string), and `userError` models an arbitrary error
object re-raised by `Log#throw`. -/
inductive JsError where
  | invalidArgument (message : String)
  | typeError (message : String)
  | userError (message : String) (cloneable : Bool)
  deriving DecidableEq, Repr

/-- Modelled from the spec: the error taxonomy (`./constants`, not under
`src/`) supplies error objects that may expose a "clone with message"
capability; `Log#throw` checks `error.clone` and, when present, replaces the
message. An error value passed to `Log#throw` is its message plus whether it
exposes the clone capability. -/
structure UserError where
  message : String
  cloneable : Bool
  deriving DecidableEq, Repr

/-- Modelled from the spec: `error.clone(customMessage)` produces a new
error of the same kind with the custom message substituted. -/
def UserError.cloneWith (e : UserError) (m : String) : UserError :=
  { e with message := m }

/-- A JS value as it reaches the logger's API: primitives carried inline,
objects as indices into the heap (`objTable` for level-table objects,
`objComp` for component objects). -/
inductive JRef where
  | undef
  | nullV
  | str (s : String)
  | num (n : Int)
  | boolV (b : Bool)
  | objTable (r : Nat)
  | objComp (c : Nat)
  deriving DecidableEq, Repr

/-- JS truthiness of a value (`&&`, `!`, `||` semantics). -/
def truthy : JRef → Bool
  | .undef => false
  | .nullV => false
  | .str s => !s.isEmpty
  | .num n => n != 0
  | .boolV b => b
  | .objTable _ => true
  | .objComp _ => true

/-- JS `typeof` of a value (note `typeof null` is `"object"`). -/
def jsTypeof : JRef → String
  | .undef => "undefined"
  | .nullV => "object"
  | .str _ => "string"
  | .num _ => "number"
  | .boolV _ => "boolean"
  | .objTable _ => "object"
  | .objComp _ => "object"

/-- JS property-key coercion: the value used in `logLevels[moduleName]` once
`moduleName` is turned into a string key. -/
def jsPropKey : JRef → String
  | .undef => "undefined"
  | .nullV => "null"
  | .str s => s
  | .num n => toString n
  | .boolV b => if b then "true" else "false"
  | .objTable _ => "[object Object]"
  | .objComp _ => "[object Object]"

/-- A JS number restricted to the fragment the logger manipulates: integers
and `NaN`. -/
inductive JsNumber where
  | int (n : Int)
  | nan
  deriving DecidableEq, Repr

/-- JS `<=` between a possibly-`NaN` number and an integer: any comparison
with `NaN` is false. -/
def jsle (a : JsNumber) (b : Int) : Bool :=
  match a with
  | .int n => n ≤ b
  | .nan => false

/-- Decimal digit test on a character (codes 48 to 57). -/
def isDig (c : Char) : Bool :=
  decide (48 ≤ c.toNat) && decide (c.toNat ≤ 57)

/-- Value of a decimal digit character. -/
def digVal (c : Char) : Nat := c.toNat - 48

/-- Numeric value of a digit sequence, most significant first. -/
def digitsToNat (cs : List Char) : Nat :=
  cs.foldl (fun a c => a * 10 + digVal c) 0

/-- Reads a nonempty all-digit character list as a natural number. -/
def decDigits? (cs : List Char) : Option Nat :=
  if cs.isEmpty then none
  else if cs.all isDig then some (digitsToNat cs) else none

/-- Full-string decimal integer literal (optional sign, then digits); this is
the fragment of JS `Number(string)` coercion the model covers. -/
def strToInt? (s : String) : Option Int :=
  match s.data with
  | [] => none
  | c :: rest =>
    if c = '-' then (decDigits? rest).map (fun n => -(n : Int))
    else if c = '+' then (decDigits? rest).map (fun n => (n : Int))
    else (decDigits? (c :: rest)).map (fun n => (n : Int))

/-- JS `Number(string)` on the modelled fragment: the empty string coerces
to `0`, otherwise a full decimal integer literal; `none` means `NaN`. -/
def jsStrNumber? (s : String) : Option Int :=
  if s.data.isEmpty then some 0 else strToInt? s

/-- JS `isNaN(v)`: whether the number coercion of `v` is `NaN`. -/
def jsIsNaN : JRef → Bool
  | .num _ => false
  | .str s => (jsStrNumber? s).isNone
  | .undef => true
  | .nullV => false
  | .boolV _ => false
  | .objTable _ => true
  | .objComp _ => true

/-- Parses an optional leading digit run (after an optional sign) as
`parseInt` does; no digits gives `NaN`. -/
def parseDigitsOrNaN (neg : Bool) (cs : List Char) : JsNumber :=
  match cs.takeWhile isDig with
  | [] => .nan
  | ds => .int (if neg then -(digitsToNat ds : Int) else (digitsToNat ds : Int))

/-- JS `parseInt(s, 10)`: optional sign, then the longest leading digit run;
trailing garbage is ignored and no digits at all gives `NaN`. -/
def parseInt10 (s : String) : JsNumber :=
  match s.data with
  | [] => .nan
  | c :: rest =>
    if c = '-' then parseDigitsOrNaN true rest
    else if c = '+' then parseDigitsOrNaN false rest
    else parseDigitsOrNaN false (c :: rest)

/-- JS `parseInt(v, 10)` after the implicit string coercion of the argument:
numbers parse back to themselves, and the stringifications of `null`,
booleans, `undefined` and plain objects have no leading digits. -/
def jsParseInt : JRef → JsNumber
  | .num n => .int n
  | .str s => parseInt10 s
  | .nullV => .nan
  | .boolV _ => .nan
  | .undef => .nan
  | .objTable _ => .nan
  | .objComp _ => .nan

/-- ASCII uppercasing of one character, as JS `toUpperCase` acts on the
ASCII range (codes 97 to 122 shift down by 32). -/
def jsCharToUpper (c : Char) : Char :=
  if 97 ≤ c.toNat ∧ c.toNat ≤ 122 then Char.ofNat (c.toNat - 32) else c

/-- JS `String.prototype.toUpperCase` on the ASCII fragment. -/
def jsToUpper (s : String) : String :=
  ⟨s.data.map jsCharToUpper⟩

/-- Evaluates `v.toUpperCase()` on an arbitrary JS value: only strings have
the method; other values raise a `TypeError` (reading a property of
`undefined`/`null`, or calling a non-function on other primitives and
objects). -/
def jsToUpperCaseJ : JRef → Except JsError String
  | .str s => .ok (jsToUpper s)
  | .undef => .error (.typeError "Cannot read properties of undefined")
  | .nullV => .error (.typeError "Cannot read properties of null")
  | _ => .error (.typeError "toUpperCase is not a function")

/-- Modelled from the spec: the process-wide default level constant
(`DEFAULT_LOG_LEVEL` from `./constants`, not under `src/`); a valid level
name used when a module has no explicit entry. -/
def DEFAULT_LOG_LEVEL : String := "warn"

/-- The shared level table: a JS object mapping module-name keys to values
(insertion-ordered, unique keys when built through the API). -/
abbrev LevelTable := List (String × JRef)

/-- First-match lookup, modelling JS property read `t[k]` (`none` is
`undefined`). -/
def lookupTable (t : LevelTable) (k : String) : Option JRef :=
  match t with
  | [] => none
  | (k', v) :: rest => if k' = k then some v else lookupTable rest k

/-- JS property write `t[k] = v`: overwrites an existing key in place,
otherwise appends the new key at the end. -/
def setKey (t : LevelTable) (k : String) (v : JRef) : LevelTable :=
  match t with
  | [] => [(k, v)]
  | (k', v') :: rest => if k' = k then (k, v) :: rest else (k', v') :: setKey rest k v

/-- Models `Object.assign(target, source)`: writes every source entry into the
target, in source order. -/
def objectAssign (t : LevelTable) (src : LevelTable) : LevelTable :=
  src.foldl (fun acc p => setKey acc p.1 p.2) t

/-- The toString function currently installed on a component object: either
a function returning a fixed string, or one reading the component's mutable
`field` at call time. -/
inductive ToStrFn where
  | constStr (s : String)
  | fieldRead
  deriving DecidableEq, Repr

/-- A component object: one mutable string field and a mutable (reassignable)
`toString` implementation. -/
structure Component where
  field : String
  toStr : ToStrFn
  deriving DecidableEq, Repr

instance : Inhabited Component := ⟨⟨"", .constStr ""⟩⟩

/-- The mutable world: level-table objects and component objects, addressed
by index. -/
structure Heap where
  tables : List LevelTable
  components : List Component
  deriving DecidableEq, Repr

/-- List read with default (out-of-range reads the default). -/
def listGetD {α : Type} : List α → Nat → α → α
  | [], _, d => d
  | a :: _, 0, _ => a
  | _ :: rest, n + 1, d => listGetD rest n d

/-- List write (out-of-range writes are dropped). -/
def listSet {α : Type} : List α → Nat → α → List α
  | [], _, _ => []
  | _ :: rest, 0, b => b :: rest
  | a :: rest, n + 1, b => a :: listSet rest n b

/-- The level-table object a heap reference denotes. -/
def Heap.tableAt (h : Heap) (r : Nat) : LevelTable :=
  listGetD h.tables r []

/-- Mutates the `field` of component `c` (models `comp.field = s`). -/
def Heap.setField (h : Heap) (c : Nat) (s : String) : Heap :=
  { h with components :=
      listSet h.components c { listGetD h.components c default with field := s } }

/-- Reassigns the `toString` of component `c` (models `comp.toString = f`). -/
def Heap.setToStr (h : Heap) (c : Nat) (f : ToStrFn) : Heap :=
  { h with components :=
      listSet h.components c { listGetD h.components c default with toStr := f } }

/-- The heap after `Object.assign` of `upd` into the table object `r`: the
in-place merge performed by `setLevels`. -/
def Heap.assignTables (h : Heap) (r : Nat) (upd : LevelTable) : Heap :=
  { h with tables := listSet h.tables r (objectAssign (h.tableAt r) upd) }

/-- The `name` getter as captured at construction:
`component.toString.bind(component)` evaluates `component.toString` once and
fixes the receiver, so the captured value is either a fixed string or a
read of component `c`'s current field. -/
inductive NameGetter where
  | const (s : String)
  | viaField (c : Nat)
  deriving DecidableEq, Repr

/-- Evaluates a captured `name` getter against the current heap. -/
def readName (h : Heap) : NameGetter → String
  | .const s => s
  | .viaField c => (listGetD h.components c default).field

/-- Captures `component.toString.bind(component)` at construction time: a
primitive stringifies to a fixed string; for a component object the
currently installed `toString` function is captured (a fixed-string function
stays fixed, a field-reading function keeps reading the component). -/
def captureNameGetter (h : Heap) : JRef → NameGetter
  | .str s => .const s
  | .num n => .const (toString n)
  | .boolV b => .const (if b then "true" else "false")
  | .nullV => .const "null"
  | .undef => .const "undefined"
  | .objTable _ => .const "[object Object]"
  | .objComp c =>
    match (listGetD h.components c default).toStr with
    | .constStr s => .const s
    | .fieldRead => .viaField c

/-- One `Log` instance: the raw `moduleName` argument, the shared
level-table reference captured in the property closures, and the captured
`name` getter. -/
structure Log where
  moduleName : JRef
  tableRef : Nat
  nameGetter : NameGetter
  deriving DecidableEq, Repr

/-- Rank constant `Log.DEBUG`. -/
def Log.DEBUG : Int := 0
/-- Rank constant `Log.INFO`. -/
def Log.INFO : Int := 1
/-- Rank constant `Log.WARN`. -/
def Log.WARN : Int := 2
/-- Rank constant `Log.ERROR`. -/
def Log.ERROR : Int := 3
/-- Rank constant `Log.OFF`. -/
def Log.OFF : Int := 4

/-- One entry of `Log._levels`: the level name; its output sink is
identified by the entry's index. -/
structure LevelSpec where
  name : String
  deriving DecidableEq, Repr

/-- The fixed ordered severity table `Log._levels`. -/
def Log._levels : List LevelSpec :=
  [⟨"DEBUG"⟩, ⟨"INFO"⟩, ⟨"WARN"⟩, ⟨"ERROR"⟩, ⟨"OFF"⟩]

/-- Constant `LOG_LEVEL_NAMES`: the level names in table order (and the key set of
`LOG_LEVELS_SET`). -/
def LOG_LEVEL_NAMES : List String :=
  Log._levels.map (fun level => level.name)

/-- The `INVALID_LOG_LEVEL_MESSAGE` string built from the level names. -/
def INVALID_LOG_LEVEL_MESSAGE : String :=
  "Log level must be one of: [" ++ String.intercalate "," LOG_LEVEL_NAMES ++ "]"

/-- Source `validateLogLevel(level)`: membership of `level` in `LOG_LEVELS_SET`. -/
def validateLogLevel (level : String) : Except JsError Unit :=
  if LOG_LEVEL_NAMES.contains level then .ok ()
  else .error (.invalidArgument INVALID_LOG_LEVEL_MESSAGE)

/-- Source `validateLogLevels(levels)`: for each entry in key order, uppercase the
value (which raises a `TypeError` on non-strings) and check membership; the
first failure propagates. -/
def validateLogLevels (levels : LevelTable) : Except JsError Unit :=
  match levels with
  | [] => .ok ()
  | (_, v) :: rest =>
    match jsToUpperCaseJ v with
    | .error e => .error e
    | .ok u =>
      match validateLogLevel u with
      | .error e => .error e
      | .ok _ => validateLogLevels rest

/-- The singleton property read `Log[name]` for the five rank constants. -/
def logConst (u : String) : Option Int :=
  if u = "DEBUG" then some 0
  else if u = "INFO" then some 1
  else if u = "WARN" then some 2
  else if u = "ERROR" then some 3
  else if u = "OFF" then some 4
  else none

/-- Source `Log.getLevelByName(name)`: a value that coerces to a number is returned
as `parseInt(name, 10)` with no range check; otherwise the value is
uppercased (raising a `TypeError` for non-strings), validated against the
level-name set, and its rank constant returned. -/
def Log.getLevelByName (name : JRef) : Except JsError JsNumber :=
  if jsIsNaN name = false then .ok (jsParseInt name)
  else
    match jsToUpperCaseJ name with
    | .error e => .error e
    | .ok u =>
      match validateLogLevel u with
      | .error e => .error e
      | .ok _ =>
        match logConst u with
        | some r => .ok (.int r)
        | none => .ok .nan

/-- JS `a || b` used for the default-level fallback: keeps `a` when present
and truthy. -/
def jsOr (v : Option JRef) (dflt : JRef) : JRef :=
  match v with
  | some x => if truthy x then x else dflt
  | none => dflt

/-- The computed-on-access `logLevel` getter:
`Log.getLevelByName(logLevels[moduleName] || DEFAULT_LOG_LEVEL)`, reading
the shared table afresh on every access. -/
def Log.logLevel (h : Heap) (l : Log) : Except JsError JsNumber :=
  Log.getLevelByName
    (jsOr (lookupTable (h.tableAt l.tableRef) (jsPropKey l.moduleName))
      (.str DEFAULT_LOG_LEVEL))

/-- The `name` getter: the captured `component.toString` evaluated against
the current heap. -/
def Log.name (h : Heap) (l : Log) : String :=
  readName h l.nameGetter

/-- Tail of the constructor shared by both level-table paths: validate the
referenced table, then build the instance with the table captured by
reference. -/
def Log.finishNew (h : Heap) (moduleName component : JRef) (r : Nat) :
    Except JsError (Heap × Log) :=
  match validateLogLevels (h.tableAt r) with
  | .error e => .error e
  | .ok _ =>
    .ok (h, { moduleName := moduleName, tableRef := r,
              nameGetter := captureNameGetter h component })

/-- The `Log` constructor: module-name check, component check, defaulting of
a non-object `logLevels` to a fresh empty object, eager validation, then the
property definitions. A `null` table passes the `typeof` test and makes
`Object.keys` raise a `TypeError`. -/
def Log.new (h : Heap) (moduleName component logLevels : JRef) :
    Except JsError (Heap × Log) :=
  if jsTypeof moduleName ≠ "string" ∧ truthy moduleName = true then
    .error (.invalidArgument "module name is not a string")
  else if truthy component = false then
    .error (.invalidArgument "component is required")
  else if jsTypeof logLevels ≠ "object" then
    Log.finishNew { h with tables := h.tables ++ [[]] } moduleName component
      h.tables.length
  else
    match logLevels with
    | .objTable r => Log.finishNew h moduleName component r
    | _ => .error (.typeError "Cannot convert undefined or null to object")

/-- Source `Log#createLog(moduleName, component)`: a child constructed with this
instance's `_logLevels` object. -/
def Log.createLog (h : Heap) (l : Log) (moduleName component : JRef) :
    Except JsError (Heap × Log) :=
  Log.new h moduleName component (.objTable l.tableRef)

/-- One `createLog` derivation step in heap `h`: instance `c` was created
from instance `p` via `Log#createLog` (with some module name and component),
so `c` captured `p`'s level-table object. -/
def isChildOf (h : Heap) (p c : Log) : Prop :=
  ∃ moduleName component,
    Log.createLog h p moduleName component = .ok (h, c)

/-- Source `Log#setLevels(levels)`: validate the whole update, then
`Object.assign` it into the shared table in place, returning `this`. -/
def Log.setLevels (h : Heap) (l : Log) (levels : LevelTable) :
    Except JsError (Heap × Log) :=
  match validateLogLevels levels with
  | .error e => .error e
  | .ok _ => .ok (h.assignTables l.tableRef levels, l)

/-- Splits a character list at every occurrence of `sep`, keeping empty
groups, as JS `String.prototype.split` does with a one-character
separator. -/
def splitOnChar (sep : Char) : List Char → List (List Char)
  | [] => [[]]
  | c :: rest =>
    let r := splitOnChar sep rest
    if c = sep then [] :: r
    else
      match r with
      | [] => [[c]]
      | g :: gs => (c :: g) :: gs

/-- JS `s.split('T')`, used on the ISO timestamp to separate date and
time. -/
def jsSplitOnT (s : String) : List String :=
  (splitOnChar 'T' s.data).map (fun cs => ⟨cs⟩)

/-- One payload element handed to a sink: a string or an error object. -/
inductive LogArg where
  | str (s : String)
  | err (e : UserError)
  deriving DecidableEq, Repr

/-- One observed sink call: which `Log._levels` entry's output function was
applied, and the full argument sequence. -/
structure Emission where
  sink : Nat
  args : List LogArg
  deriving DecidableEq, Repr

/-- Positional list read. -/
def listGet? {α : Type} : List α → Nat → Option α
  | [], _ => none
  | a :: _, 0 => some a
  | _ :: rest, n + 1 => listGet? rest n

/-- JS array read `Log._levels[i]` at an integer index: negative and
past-the-end indices read `undefined`. -/
def arrayGet? {α : Type} (xs : List α) (i : Int) : Option α :=
  if i < 0 then none else listGet? xs i.toNat

/-- Source `Log#log(logLevel, message)`: look up the level descriptor (raising
`InvalidArgument` when the rank has none), then, when the effective level
permits, emit one call to that level's sink with the timestamp-and-identity
preamble followed by the message payload; returns `this` either way.
`nowISO` stands for `new Date().toISOString()`. -/
def Log.log (h : Heap) (l : Log) (nowISO : String) (logLevel : Int)
    (message : List LogArg) : Except JsError (List Emission × Log) :=
  match arrayGet? Log._levels logLevel with
  | none => .error (.invalidArgument "Invalid log level")
  | some logSpec =>
    match Log.logLevel h l with
    | .error e => .error e
    | .ok eff =>
      if jsle eff logLevel then
        .ok ([⟨logLevel.toNat,
              ((jsSplitOnT nowISO) ++
               ["|", logSpec.name, "in", Log.name h l ++ ":"]).map LogArg.str
              ++ message⟩], l)
      else .ok ([], l)

/-- Source `Log#throw(error, customMessage)`: clone the error when it exposes the
capability, log it at `ERROR` rank, then raise it; the result is the list of
sink calls made together with the exception that propagates (this function
never returns normally). -/
def Log.throwFn (h : Heap) (l : Log) (nowISO : String) (error : UserError)
    (customMessage : String) : List Emission × JsError :=
  let error := if error.cloneable then error.cloneWith customMessage else error
  match Log.log h l nowISO Log.ERROR [.err error] with
  | .ok (ems, _) => (ems, .userError error.message error.cloneable)
  | .error e => ([], e)

/-! Helper lemmas about the list primitives and the table operations. -/

theorem listGet?_ge_length {α : Type} (xs : List α) (n : Nat)
    (h : xs.length ≤ n) : listGet? xs n = none := by
  induction xs generalizing n with
  | nil => cases n <;> rfl
  | cons a rest ih =>
    cases n with
    | zero => simp at h
    | succ m => exact ih m (by simpa using h)

theorem listGetD_listSet_self {α : Type} (xs : List α) (r : Nat) (a d : α)
    (h : r < xs.length) : listGetD (listSet xs r a) r d = a := by
  induction xs generalizing r with
  | nil => simp at h
  | cons x rest ih =>
    cases r with
    | zero => rfl
    | succ m => exact ih m (by simpa using h)

theorem listGetD_append_length {α : Type} (xs : List α) (a d : α) :
    listGetD (xs ++ [a]) xs.length d = a := by
  induction xs with
  | nil => rfl
  | cons x rest ih =>
    simp only [List.cons_append, List.length_cons]
    exact ih

theorem lookupTable_setKey_self (t : LevelTable) (k : String) (v : JRef) :
    lookupTable (setKey t k v) k = some v := by
  induction t with
  | nil => simp [setKey, lookupTable]
  | cons p rest ih =>
    obtain ⟨k₀, v₀⟩ := p
    by_cases hk : k₀ = k
    · subst hk; simp [setKey, lookupTable]
    · simp [setKey, hk, lookupTable, ih]

theorem lookupTable_setKey_other (t : LevelTable) (k k' : String) (v : JRef)
    (hne : k' ≠ k) : lookupTable (setKey t k v) k' = lookupTable t k' := by
  induction t with
  | nil => simp [setKey, lookupTable, Ne.symm hne]
  | cons p rest ih =>
    obtain ⟨k₀, v₀⟩ := p
    by_cases hk : k₀ = k
    · subst hk; simp [setKey, lookupTable, Ne.symm hne]
    · by_cases hk2 : k₀ = k'
      · subst hk2; simp [setKey, hk, lookupTable]
      · simp [setKey, hk, lookupTable, hk2, ih]

theorem objectAssign_nil (t : LevelTable) : objectAssign t [] = t := rfl

theorem objectAssign_cons (t : LevelTable) (k : String) (v : JRef)
    (rest : LevelTable) :
    objectAssign t ((k, v) :: rest) = objectAssign (setKey t k v) rest := rfl

theorem lookupTable_objectAssign_not_mem (src : LevelTable) (t : LevelTable)
    (k : String) (h : k ∉ src.map Prod.fst) :
    lookupTable (objectAssign t src) k = lookupTable t k := by
  induction src generalizing t with
  | nil => rfl
  | cons p rest ih =>
    obtain ⟨k₀, v₀⟩ := p
    simp only [List.map_cons, List.mem_cons, not_or] at h
    rw [objectAssign_cons, ih _ h.2, lookupTable_setKey_other _ _ _ _ h.1]

theorem lookupTable_objectAssign_mem (src : LevelTable) (t : LevelTable)
    (k : String) (v : JRef) (hnd : (src.map Prod.fst).Nodup)
    (hm : (k, v) ∈ src) :
    lookupTable (objectAssign t src) k = some v := by
  induction src generalizing t with
  | nil => cases hm
  | cons p rest ih =>
    obtain ⟨k₀, v₀⟩ := p
    simp only [List.map_cons, List.nodup_cons] at hnd
    rw [objectAssign_cons]
    rcases List.mem_cons.mp hm with heq | htail
    · cases heq
      rw [lookupTable_objectAssign_not_mem _ _ _ hnd.1, lookupTable_setKey_self]
    · exact ih _ hnd.2 htail

/-! Helper lemmas about validation. -/

theorem validateLogLevels_cons (k : String) (v : JRef) (rest : LevelTable) :
    validateLogLevels ((k, v) :: rest) =
      match jsToUpperCaseJ v with
      | .error e => .error e
      | .ok u =>
        match validateLogLevel u with
        | .error e => .error e
        | .ok _ => validateLogLevels rest := rfl

theorem jsToUpperCaseJ_error (v : JRef) (e : JsError)
    (h : jsToUpperCaseJ v = .error e) : ∃ m, e = .typeError m := by
  cases v <;> simp [jsToUpperCaseJ] at h
  all_goals exact ⟨_, h.symm⟩

theorem jsToUpperCaseJ_ok (v : JRef) (u : String)
    (h : jsToUpperCaseJ v = .ok u) : ∃ s, v = JRef.str s ∧ u = jsToUpper s := by
  cases v <;> simp [jsToUpperCaseJ] at h
  all_goals exact ⟨_, rfl, h.symm⟩

theorem validateLogLevel_ok_contains (u : String) (x : Unit)
    (h : validateLogLevel u = .ok x) : LOG_LEVEL_NAMES.contains u = true := by
  by_cases hc : LOG_LEVEL_NAMES.contains u = true
  · exact hc
  · unfold validateLogLevel at h
    rw [if_neg hc] at h
    exact Except.noConfusion h

theorem validateLogLevel_error (u : String) (e : JsError)
    (h : validateLogLevel u = .error e) :
    e = .invalidArgument INVALID_LOG_LEVEL_MESSAGE ∧
      LOG_LEVEL_NAMES.contains u = false := by
  unfold validateLogLevel at h
  by_cases hc : LOG_LEVEL_NAMES.contains u = true
  · rw [if_pos hc] at h
    exact Except.noConfusion h
  · rw [if_neg hc] at h
    exact ⟨(Except.error.inj h).symm, Bool.not_eq_true _ ▸ eq_false_of_ne_true hc⟩

theorem validateLogLevels_ok_value (levels : LevelTable)
    (hok : validateLogLevels levels = .ok ()) (k : String) (v : JRef)
    (hm : (k, v) ∈ levels) :
    ∃ s, v = JRef.str s ∧ LOG_LEVEL_NAMES.contains (jsToUpper s) = true := by
  induction levels with
  | nil => cases hm
  | cons p rest ih =>
    obtain ⟨k₀, v₀⟩ := p
    rw [validateLogLevels_cons] at hok
    cases hup : jsToUpperCaseJ v₀ with
    | error e => simp only [hup] at hok; exact Except.noConfusion hok
    | ok u =>
      simp only [hup] at hok
      cases hval : validateLogLevel u with
      | error e => simp only [hval] at hok; exact Except.noConfusion hok
      | ok x =>
        simp only [hval] at hok
        rcases List.mem_cons.mp hm with heq | htail
        · obtain ⟨rfl, rfl⟩ := Prod.mk.inj heq
          obtain ⟨s, rfl, rfl⟩ := jsToUpperCaseJ_ok _ _ hup
          exact ⟨s, rfl, validateLogLevel_ok_contains _ _ hval⟩
        · exact ih hok htail

theorem validateLogLevels_error_shape (levels : LevelTable) (e : JsError)
    (h : validateLogLevels levels = .error e) :
    e = .invalidArgument INVALID_LOG_LEVEL_MESSAGE ∨ ∃ m, e = .typeError m := by
  induction levels with
  | nil => exact Except.noConfusion h
  | cons p rest ih =>
    obtain ⟨k₀, v₀⟩ := p
    rw [validateLogLevels_cons] at h
    cases hup : jsToUpperCaseJ v₀ with
    | error e' =>
      simp only [hup] at h
      obtain ⟨m, hm⟩ := jsToUpperCaseJ_error v₀ e' hup
      exact Or.inr ⟨m, (Except.error.inj h) ▸ hm⟩
    | ok u =>
      simp only [hup] at h
      cases hval : validateLogLevel u with
      | error e' =>
        simp only [hval] at h
        exact Or.inl ((Except.error.inj h) ▸ (validateLogLevel_error u e' hval).1)
      | ok x =>
        simp only [hval] at h
        exact ih h

theorem validateLogLevels_allStrings_bad (levels : LevelTable)
    (hstr : ∀ p ∈ levels, ∃ s, p.2 = JRef.str s)
    (hbad : ∃ p ∈ levels, ∃ s, p.2 = JRef.str s ∧
      LOG_LEVEL_NAMES.contains (jsToUpper s) = false) :
    validateLogLevels levels =
      .error (.invalidArgument INVALID_LOG_LEVEL_MESSAGE) := by
  induction levels with
  | nil =>
    obtain ⟨p, hp, _⟩ := hbad
    cases hp
  | cons p rest ih =>
    obtain ⟨k₀, v₀⟩ := p
    obtain ⟨s₀, hs₀⟩ := hstr (k₀, v₀) (List.mem_cons_self _ _)
    simp only at hs₀
    subst hs₀
    rw [validateLogLevels_cons]
    simp only [jsToUpperCaseJ]
    by_cases hc : LOG_LEVEL_NAMES.contains (jsToUpper s₀) = true
    · simp only [validateLogLevel, if_pos hc]
      apply ih
      · intro q hq
        exact hstr q (List.mem_cons_of_mem _ hq)
      · rcases hbad with ⟨q, hq, s, hqs, hbadq⟩
        rcases List.mem_cons.mp hq with heq | hq'
        · subst heq
          simp only at hqs
          obtain rfl := JRef.str.inj hqs
          rw [hbadq] at hc
          exact absurd hc (by simp)
        · exact ⟨q, hq', s, hqs, hbadq⟩
    · simp only [validateLogLevel, if_neg hc]

theorem validateLogLevels_nonstring (pre : LevelTable) (k : String) (v : JRef)
    (rest : LevelTable)
    (hpre : ∀ p ∈ pre, ∃ s, p.2 = JRef.str s ∧
      LOG_LEVEL_NAMES.contains (jsToUpper s) = true)
    (hv : ∀ s, v ≠ JRef.str s) :
    ∃ m, validateLogLevels (pre ++ (k, v) :: rest) =
      .error (.typeError m) := by
  induction pre with
  | nil =>
    cases v with
    | str s => exact absurd rfl (hv s)
    | undef => exact ⟨_, rfl⟩
    | nullV => exact ⟨_, rfl⟩
    | num n => exact ⟨_, rfl⟩
    | boolV b => exact ⟨_, rfl⟩
    | objTable r => exact ⟨_, rfl⟩
    | objComp c => exact ⟨_, rfl⟩
  | cons p pre' ih =>
    obtain ⟨k₀, v₀⟩ := p
    obtain ⟨s₀, hs₀, hc₀⟩ := hpre (k₀, v₀) (List.mem_cons_self _ _)
    simp only at hs₀
    subst hs₀
    rw [List.cons_append, validateLogLevels_cons]
    simp only [jsToUpperCaseJ, validateLogLevel, if_pos hc₀]
    exact ih (fun q hq => hpre q (List.mem_cons_of_mem _ hq))

theorem validateLogLevels_invalidArgument_string (levels : LevelTable)
    (m : String) (h : validateLogLevels levels = .error (.invalidArgument m)) :
    ∃ pre k s rest, levels = pre ++ (k, JRef.str s) :: rest ∧
      LOG_LEVEL_NAMES.contains (jsToUpper s) = false := by
  induction levels with
  | nil => exact Except.noConfusion h
  | cons p rest ih =>
    obtain ⟨k₀, v₀⟩ := p
    rw [validateLogLevels_cons] at h
    cases hup : jsToUpperCaseJ v₀ with
    | error e' =>
      simp only [hup] at h
      obtain ⟨m', hm'⟩ := jsToUpperCaseJ_error v₀ e' hup
      rw [hm'] at h
      exact JsError.noConfusion (Except.error.inj h)
    | ok u =>
      simp only [hup] at h
      cases hval : validateLogLevel u with
      | error e' =>
        simp only [hval] at h
        obtain ⟨s, rfl, rfl⟩ := jsToUpperCaseJ_ok _ _ hup
        exact ⟨[], k₀, s, rest, rfl, (validateLogLevel_error _ _ hval).2⟩
      | ok x =>
        simp only [hval] at h
        obtain ⟨pre, k, s, rest', heq, hcon⟩ := ih h
        exact ⟨(k₀, v₀) :: pre, k, s, rest', by rw [heq, List.cons_append], hcon⟩

/-! Helper lemmas about the constructor, setLevels, the logLevel getter and
log dispatch. -/

theorem contains_jsToUpper_ne_empty (s : String)
    (h : LOG_LEVEL_NAMES.contains (jsToUpper s) = true) :
    s.isEmpty = false := by
  by_cases hs : s = ""
  · subst hs; exact absurd h (by decide)
  · exact eq_false_of_ne_true (fun ht => hs ((String.isEmpty_iff s).mp ht))

theorem jsOr_some_str (s : String) (d : JRef) (h : s.isEmpty = false) :
    jsOr (some (.str s)) d = .str s := by
  simp [jsOr, truthy, h]

theorem checks_neg1 (mn : JRef)
    (hmn : jsTypeof mn = "string" ∨ truthy mn = false) :
    ¬(jsTypeof mn ≠ "string" ∧ truthy mn = true) := by
  rintro ⟨ha, hb⟩
  rcases hmn with hm | hm
  · exact ha hm
  · rw [hm] at hb; exact Bool.noConfusion hb

theorem checks_neg2 (comp : JRef) (hcomp : truthy comp = true) :
    ¬(truthy comp = false) := by
  rw [hcomp]; exact fun hh => Bool.noConfusion hh

theorem finishNew_ok (h : Heap) (mn comp : JRef) (r : Nat)
    (hv : validateLogLevels (h.tableAt r) = .ok ()) :
    Log.finishNew h mn comp r =
      .ok (h, ⟨mn, r, captureNameGetter h comp⟩) := by
  unfold Log.finishNew
  rw [hv]

theorem new_objTable (h : Heap) (mn comp : JRef) (r : Nat)
    (hmn : jsTypeof mn = "string" ∨ truthy mn = false)
    (hcomp : truthy comp = true) :
    Log.new h mn comp (.objTable r) = Log.finishNew h mn comp r := by
  unfold Log.new
  rw [if_neg (checks_neg1 mn hmn), if_neg (checks_neg2 comp hcomp),
    if_neg (by simp [jsTypeof])]

theorem new_nonObject (h : Heap) (mn comp lv : JRef)
    (hmn : jsTypeof mn = "string" ∨ truthy mn = false)
    (hcomp : truthy comp = true) (hlv : jsTypeof lv ≠ "object") :
    Log.new h mn comp lv =
      .ok ({ h with tables := h.tables ++ [[]] },
        ⟨mn, h.tables.length,
          captureNameGetter { h with tables := h.tables ++ [[]] } comp⟩) := by
  unfold Log.new
  rw [if_neg (checks_neg1 mn hmn), if_neg (checks_neg2 comp hcomp), if_pos hlv]
  apply finishNew_ok
  have ht : Heap.tableAt { h with tables := h.tables ++ [[]] }
      h.tables.length = [] := by
    unfold Heap.tableAt
    exact listGetD_append_length _ _ _
  rw [ht]
  rfl

theorem new_badModuleName (h : Heap) (mn comp lv : JRef)
    (h1 : jsTypeof mn ≠ "string" ∧ truthy mn = true) :
    Log.new h mn comp lv =
      .error (.invalidArgument "module name is not a string") := by
  unfold Log.new
  rw [if_pos h1]

theorem new_noComponent (h : Heap) (mn comp lv : JRef)
    (h1 : ¬(jsTypeof mn ≠ "string" ∧ truthy mn = true))
    (h2 : truthy comp = false) :
    Log.new h mn comp lv = .error (.invalidArgument "component is required") := by
  unfold Log.new
  rw [if_neg h1, if_pos h2]

theorem createLog_ok (h h' : Heap) (l c : Log) (mn comp : JRef)
    (hc : Log.createLog h l mn comp = .ok (h', c)) :
    h' = h ∧ c.tableRef = l.tableRef := by
  unfold Log.createLog at hc
  by_cases h1 : jsTypeof mn ≠ "string" ∧ truthy mn = true
  · rw [new_badModuleName _ _ _ _ h1] at hc
    exact Except.noConfusion hc
  · by_cases h2 : truthy comp = false
    · rw [new_noComponent _ _ _ _ h1 h2] at hc
      exact Except.noConfusion hc
    · have hmn : jsTypeof mn = "string" ∨ truthy mn = false := by
        by_cases hs : jsTypeof mn = "string"
        · exact Or.inl hs
        · by_cases hb : truthy mn = true
          · exact absurd ⟨hs, hb⟩ h1
          · exact Or.inr (eq_false_of_ne_true hb)
      have hcomp : truthy comp = true := by
        by_cases hb : truthy comp = true
        · exact hb
        · exact absurd (eq_false_of_ne_true hb) h2
      rw [new_objTable h mn comp l.tableRef hmn hcomp] at hc
      unfold Log.finishNew at hc
      cases hv : validateLogLevels (h.tableAt l.tableRef) with
      | error e => rw [hv] at hc; exact Except.noConfusion hc
      | ok x =>
        simp only [hv] at hc
        obtain ⟨ha, hb⟩ := Prod.mk.inj (Except.ok.inj hc)
        exact ⟨ha.symm, by rw [← hb]⟩

theorem setLevels_ok (h : Heap) (l : Log) (upd : LevelTable)
    (hv : validateLogLevels upd = .ok ()) :
    Log.setLevels h l upd = .ok (h.assignTables l.tableRef upd, l) := by
  unfold Log.setLevels
  rw [hv]

theorem setLevels_ok_inv (h h' : Heap) (l l' : Log) (upd : LevelTable)
    (hs : Log.setLevels h l upd = .ok (h', l')) :
    validateLogLevels upd = .ok () ∧ l' = l ∧
      h' = h.assignTables l.tableRef upd := by
  unfold Log.setLevels at hs
  cases hv : validateLogLevels upd with
  | error e => rw [hv] at hs; exact Except.noConfusion hs
  | ok x =>
    cases x
    simp only [hv] at hs
    obtain ⟨ha, hb⟩ := Prod.mk.inj (Except.ok.inj hs)
    exact ⟨rfl, hb.symm, ha.symm⟩

theorem logLevel_of_entry (h : Heap) (i : Log) (s : String)
    (hlk : lookupTable (h.tableAt i.tableRef) (jsPropKey i.moduleName) =
      some (.str s))
    (hne : s.isEmpty = false) :
    Log.logLevel h i = Log.getLevelByName (.str s) := by
  unfold Log.logLevel
  rw [hlk, jsOr_some_str _ _ hne]

theorem logLevel_empty_table (h : Heap) (i : Log)
    (hT : h.tableAt i.tableRef = []) :
    Log.logLevel h i = Log.getLevelByName (.str DEFAULT_LOG_LEVEL) := by
  unfold Log.logLevel
  rw [hT]
  rfl

theorem log_eval (h : Heap) (l : Log) (now : String) (r : Int)
    (spec : LevelSpec) (L : Int) (msg : List LogArg)
    (hspec : arrayGet? Log._levels r = some spec)
    (heff : Log.logLevel h l = .ok (.int L)) :
    Log.log h l now r msg =
      .ok ((if L ≤ r then
        [⟨r.toNat, ((jsSplitOnT now) ++
          ["|", spec.name, "in", Log.name h l ++ ":"]).map LogArg.str ++ msg⟩]
      else []), l) := by
  unfold Log.log
  rw [hspec, heff]
  by_cases hc : L ≤ r
  · simp [jsle, hc]
  · simp [jsle, hc]

theorem arrayGet?_levels_none (r : Int) (hr : r < 0 ∨ 5 ≤ r) :
    arrayGet? Log._levels r = none := by
  rcases hr with hr | hr
  · unfold arrayGet?; rw [if_pos hr]
  · unfold arrayGet?
    rw [if_neg (by omega)]
    exact listGet?_ge_length _ _
      (by rw [show Log._levels.length = 5 from rfl]; omega)

theorem log_invalid_rank (h : Heap) (l : Log) (now : String) (r : Int)
    (msg : List LogArg) (hr : r < 0 ∨ 5 ≤ r) :
    Log.log h l now r msg = .error (.invalidArgument "Invalid log level") := by
  unfold Log.log
  rw [arrayGet?_levels_none r hr]

/-! Helper lemmas for the analysis of getLevelByName. -/

theorem upper_data (s : String) :
    (jsToUpper s).data = s.data.map jsCharToUpper := rfl

theorem jsStrNumber_head (s : String) (k : Int) (h : jsStrNumber? s = some k) :
    s.data = [] ∨ ∃ c rest, s.data = c :: rest ∧ jsCharToUpper c = c ∧
      (c = '-' ∨ c = '+' ∨ isDig c = true) := by
  unfold jsStrNumber? at h
  by_cases he : s.data.isEmpty = true
  · exact Or.inl (List.isEmpty_iff.mp he)
  · rw [if_neg he] at h
    unfold strToInt? at h
    cases hd : s.data with
    | nil => rw [hd] at h; exact Option.noConfusion h
    | cons c rest =>
      simp only [hd] at h
      by_cases h1 : c = '-'
      · subst h1
        exact Or.inr ⟨'-', rest, rfl, by decide, Or.inl rfl⟩
      · by_cases h2 : c = '+'
        · subst h2
          exact Or.inr ⟨'+', rest, rfl, by decide, Or.inr (Or.inl rfl)⟩
        · rw [if_neg h1, if_neg h2] at h
          have hdig : isDig c = true := by
            cases hdd : decDigits? (c :: rest) with
            | none => rw [hdd] at h; exact Option.noConfusion h
            | some n =>
              unfold decDigits? at hdd
              rw [if_neg (by simp)] at hdd
              by_cases hall : (c :: rest).all isDig = true
              · exact (List.all_cons .. ▸ hall : (isDig c && rest.all isDig) = true)
                  |> Bool.and_eq_true_iff.mp |>.1
              · rw [if_neg hall] at hdd
                exact Option.noConfusion hdd
          have hb : 48 ≤ c.toNat ∧ c.toNat ≤ 57 := by
            simpa [isDig] using hdig
          have hupper : jsCharToUpper c = c := by
            unfold jsCharToUpper
            rw [if_neg (by omega)]
          exact Or.inr ⟨c, rest, rfl, hupper, Or.inr (Or.inr hdig)⟩

theorem logConst_contains (u : String) (r : Int) (h : logConst u = some r) :
    LOG_LEVEL_NAMES.contains u = true := by
  unfold logConst at h
  split_ifs at h with h1 h2 h3 h4 h5
  · subst h1; decide
  · subst h2; decide
  · subst h3; decide
  · subst h4; decide
  · subst h5; decide

theorem logConst_head (u : String) (r : Int) (h : logConst u = some r) :
    ∃ d ds, u.data = d :: ds ∧ ¬(d = '-' ∨ d = '+' ∨ isDig d = true) := by
  unfold logConst at h
  split_ifs at h with h1 h2 h3 h4 h5
  · subst h1; exact ⟨'D', _, rfl, by decide⟩
  · subst h2; exact ⟨'I', _, rfl, by decide⟩
  · subst h3; exact ⟨'W', _, rfl, by decide⟩
  · subst h4; exact ⟨'E', _, rfl, by decide⟩
  · subst h5; exact ⟨'O', _, rfl, by decide⟩

theorem validName_isNaN (s : String) (r : Int)
    (h : logConst (jsToUpper s) = some r) : jsIsNaN (.str s) = true := by
  show (jsStrNumber? s).isNone = true
  cases hn : jsStrNumber? s with
  | none => rfl
  | some k =>
    exfalso
    obtain ⟨d, ds, hud, hd⟩ := logConst_head _ _ h
    rcases jsStrNumber_head s k hn with hnil | ⟨c, rest, hcd, hfc, hc⟩
    · rw [upper_data, hnil] at hud
      exact List.noConfusion hud
    · rw [upper_data, hcd] at hud
      simp only [List.map_cons] at hud
      obtain ⟨hd1, _⟩ := List.cons.inj hud
      rw [hfc] at hd1
      subst hd1
      exact hd hc

theorem getLevelByName_validName (s : String) (r : Int)
    (h : logConst (jsToUpper s) = some r) :
    Log.getLevelByName (.str s) = .ok (.int r) := by
  have hnan := validName_isNaN s r h
  unfold Log.getLevelByName
  rw [if_neg (fun hh => by rw [hnan] at hh; exact Bool.noConfusion hh)]
  have hcont := logConst_contains _ _ h
  simp only [jsToUpperCaseJ, validateLogLevel, if_pos hcont, h]

theorem getLevelByName_num (n : Int) :
    Log.getLevelByName (.num n) = .ok (.int n) := rfl

theorem getLevelByName_numeric (s : String)
    (h : jsIsNaN (.str s) = false) :
    Log.getLevelByName (.str s) = .ok (parseInt10 s) := by
  unfold Log.getLevelByName
  rw [if_pos h]
  rfl

theorem getLevelByName_badName (s : String)
    (hnan : jsIsNaN (.str s) = true)
    (hnc : LOG_LEVEL_NAMES.contains (jsToUpper s) = false) :
    Log.getLevelByName (.str s) =
      .error (.invalidArgument INVALID_LOG_LEVEL_MESSAGE) := by
  unfold Log.getLevelByName
  rw [if_neg (fun hh => by rw [hnan] at hh; exact Bool.noConfusion hh)]
  have hcond : ¬(LOG_LEVEL_NAMES.contains (jsToUpper s) = true) := by
    rw [hnc]; exact fun hh => Bool.noConfusion hh
  simp only [jsToUpperCaseJ, validateLogLevel, if_neg hcond]

theorem new_null (h : Heap) (mn comp : JRef)
    (hmn : jsTypeof mn = "string" ∨ truthy mn = false)
    (hcomp : truthy comp = true) :
    Log.new h mn comp .nullV =
      .error (.typeError "Cannot convert undefined or null to object") := by
  unfold Log.new
  rw [if_neg (checks_neg1 mn hmn), if_neg (checks_neg2 comp hcomp),
    if_neg (by simp [jsTypeof])]

theorem new_objComp (h : Heap) (mn comp : JRef) (c : Nat)
    (hmn : jsTypeof mn = "string" ∨ truthy mn = false)
    (hcomp : truthy comp = true) :
    Log.new h mn comp (.objComp c) =
      .error (.typeError "Cannot convert undefined or null to object") := by
  unfold Log.new
  rw [if_neg (checks_neg1 mn hmn), if_neg (checks_neg2 comp hcomp),
    if_neg (by simp [jsTypeof])]

theorem listGetD_listSet_field (xs : List Component) (i j : Nat)
    (f : ToStrFn) (d : Component) :
    (listGetD (listSet xs i { listGetD xs i d with toStr := f }) j d).field =
      (listGetD xs j d).field := by
  induction xs generalizing i j with
  | nil => rfl
  | cons x rest ih =>
    cases i with
    | zero =>
      cases j with
      | zero => rfl
      | succ j' => rfl
    | succ i' =>
      cases j with
      | zero => rfl
      | succ j' => exact ih i' j'

/-! Claim theorems. -/

/-- C2: for every Log instance and every rank that has a level descriptor,
`log(r, message)` emits nothing when the instance's effective level is
greater than `r`, and otherwise emits exactly one call to the sink
associated with `r`, passing the prefix sequence (ISO date part, ISO time
part, "|", level name, "in", component name followed by ":") and then the
message payload; in both cases `log` returns the instance. -/
theorem c2_log_gating_and_format (h : Heap) (l : Log) (now d t : String)
    (r L : Int) (spec : LevelSpec) (msg : List LogArg)
    (hspec : arrayGet? Log._levels r = some spec)
    (heff : Log.logLevel h l = .ok (.int L))
    (hsplit : jsSplitOnT now = [d, t]) :
    (L > r → Log.log h l now r msg = .ok ([], l)) ∧
    (L ≤ r → Log.log h l now r msg =
      .ok ([⟨r.toNat, ([d, t, "|", spec.name, "in",
        Log.name h l ++ ":"]).map LogArg.str ++ msg⟩], l)) := by
  constructor
  · intro hgt
    rw [log_eval h l now r spec L msg hspec heff, if_neg (by omega)]
  · intro hle
    rw [log_eval h l now r spec L msg hspec heff, if_pos hle, hsplit]
    rfl

/-- C2 witness: with effective level INFO (rank 1), a rank-0 call emits
nothing and a rank-2 call emits one WARN-sink call with the full prefix;
both return the instance. -/
theorem c2_witness :
    Log.log ⟨[[("m", JRef.str "INFO")]], []⟩ ⟨.str "m", 0, .const "c"⟩
      "2020-01-02T03:04:05.000Z" 0 [.str "x"] =
      .ok ([], ⟨.str "m", 0, .const "c"⟩) ∧
    Log.log ⟨[[("m", JRef.str "INFO")]], []⟩ ⟨.str "m", 0, .const "c"⟩
      "2020-01-02T03:04:05.000Z" 2 [.str "x"] =
      .ok ([⟨2, [.str "2020-01-02", .str "03:04:05.000Z", .str "|",
        .str "WARN", .str "in", .str "c:", .str "x"]⟩],
        ⟨.str "m", 0, .const "c"⟩) := by
  constructor
  · exact (c2_log_gating_and_format _ _ _ "2020-01-02" "03:04:05.000Z" 0 1
      ⟨"DEBUG"⟩ _ (by decide) (by decide) (by decide)).1 (by decide)
  · exact (c2_log_gating_and_format _ _ _ "2020-01-02" "03:04:05.000Z" 2 1
      ⟨"WARN"⟩ _ (by decide) (by decide) (by decide)).2 (by decide)

/-- C4: `getLevelByName` maps a valid level name in any letter case to its
fixed rank (the rank read off the `Log` singleton constants, DEBUG 0, INFO
1, WARN 2, ERROR 3, OFF 4); any numeric or numeric-string argument is
returned as `parseInt` of it, with no validation against the rank range;
and a non-numeric string that uppercases to no valid level name fails with
`InvalidArgument`. -/
theorem c4_getLevelByName_behavior :
    (∀ s r, logConst (jsToUpper s) = some r →
      Log.getLevelByName (.str s) = .ok (.int r)) ∧
    (∀ n : Int, Log.getLevelByName (.num n) = .ok (.int n)) ∧
    (∀ s, jsIsNaN (.str s) = false →
      Log.getLevelByName (.str s) = .ok (parseInt10 s)) ∧
    (∀ s, jsIsNaN (.str s) = true →
      LOG_LEVEL_NAMES.contains (jsToUpper s) = false →
      Log.getLevelByName (.str s) =
        .error (.invalidArgument INVALID_LOG_LEVEL_MESSAGE)) :=
  ⟨getLevelByName_validName, getLevelByName_num, getLevelByName_numeric,
    getLevelByName_badName⟩

/-- C4 witness: "dEbUg" resolves to rank 0; the number 7 and the
out-of-range numeric string "99" pass through unvalidated; "verbose" fails
with the invalid-level error. -/
theorem c4_witness :
    Log.getLevelByName (.str "dEbUg") = .ok (.int 0) ∧
    Log.getLevelByName (.num 7) = .ok (.int 7) ∧
    Log.getLevelByName (.str "99") = .ok (parseInt10 "99") ∧
    Log.getLevelByName (.str "verbose") =
      .error (.invalidArgument INVALID_LOG_LEVEL_MESSAGE) :=
  ⟨c4_getLevelByName_behavior.1 "dEbUg" 0 (by decide),
   c4_getLevelByName_behavior.2.1 7,
   c4_getLevelByName_behavior.2.2.1 "99" (by decide),
   c4_getLevelByName_behavior.2.2.2 "verbose" (by decide) (by decide)⟩

/-- C5: for every instance, every configured level table, and every numeric
rank with no level descriptor (negative or at least 5, for example 99),
`log` fails with the `InvalidArgument` error "Invalid log level" and the
result carries no sink call. -/
theorem c5_invalid_rank_always_throws (h : Heap) (l : Log) (now : String)
    (r : Int) (msg : List LogArg) (hr : r < 0 ∨ 5 ≤ r) :
    Log.log h l now r msg = .error (.invalidArgument "Invalid log level") :=
  log_invalid_rank h l now r msg hr

/-- C5 witness: rank 99 fails with "Invalid log level" even though the
configured level is DEBUG (everything enabled). -/
theorem c5_witness :
    Log.log ⟨[[("m", JRef.str "DEBUG")]], []⟩ ⟨.str "m", 0, .const "c"⟩
      "2020-01-02T03:04:05.000Z" 99 [.str "x"] =
      .error (.invalidArgument "Invalid log level") :=
  c5_invalid_rank_always_throws _ _ _ 99 _ (Or.inr (by decide))

/-- C1: an instance derived from another via `createLog`, directly or
transitively, holds the exact same level-table object (equal table
reference); and once any instance holding that table successfully runs
`setLevels` with a valid mapping, every instance holding the table and
scoped to an updated module name immediately reads, through the
computed-on-access `logLevel` getter, the level resolved from the new entry
(no copy, no cache). -/
theorem c1_shared_table_propagation (h : Heap) (p c : Log)
    (hder : Relation.TransGen (isChildOf h) p c) :
    c.tableRef = p.tableRef ∧
    ∀ (h₁ h₂ : Heap) (g g' : Log) (upd : LevelTable),
      g.tableRef = p.tableRef →
      g.tableRef < h₁.tables.length →
      Log.setLevels h₁ g upd = .ok (h₂, g') →
      (upd.map Prod.fst).Nodup →
      ∀ (i : Log) (v : JRef), i.tableRef = p.tableRef →
        (jsPropKey i.moduleName, v) ∈ upd →
        Log.logLevel h₂ i = Log.getLevelByName v := by
  constructor
  · induction hder with
    | single hstep =>
      obtain ⟨mn, comp, hc⟩ := hstep
      exact (createLog_ok _ _ _ _ _ _ hc).2
    | tail hpq hstep ih =>
      obtain ⟨mn, comp, hc⟩ := hstep
      exact ((createLog_ok _ _ _ _ _ _ hc).2).trans ih
  · intro h₁ h₂ g g' upd hgr hlen hset hnd i v hir hmem
    obtain ⟨hval, hg', hh₂⟩ := setLevels_ok_inv _ _ _ _ _ hset
    obtain ⟨s, rfl, hcont⟩ := validateLogLevels_ok_value upd hval _ _ hmem
    have hT : Heap.tableAt h₂ i.tableRef =
        objectAssign (h₁.tableAt g.tableRef) upd := by
      rw [hh₂, show i.tableRef = g.tableRef from hir.trans hgr.symm]
      unfold Heap.assignTables Heap.tableAt
      exact listGetD_listSet_self _ _ _ _ hlen
    have hlk : lookupTable (Heap.tableAt h₂ i.tableRef)
        (jsPropKey i.moduleName) = some (.str s) := by
      rw [hT]
      exact lookupTable_objectAssign_mem upd _ _ _ hnd hmem
    exact logLevel_of_entry h₂ i s hlk (contains_jsToUpper_ne_empty s hcont)

/-- C1 witness: a child created via `createLog` carries its parent's table
reference, and after `setLevels` installs ("m", "WARN") through the parent,
an instance scoped to module "m" on the same table reads exactly
`getLevelByName "WARN"`. -/
theorem c1_witness :
    (⟨.str "b", 0, .const "C"⟩ : Log).tableRef =
      (⟨.str "a", 0, .const "P"⟩ : Log).tableRef ∧
    Log.logLevel ⟨[[("m", JRef.str "WARN")]], []⟩ ⟨.str "m", 0, .const "X"⟩ =
      Log.getLevelByName (.str "WARN") := by
  have hmain := c1_shared_table_propagation ⟨[[]], []⟩
    ⟨.str "a", 0, .const "P"⟩ ⟨.str "b", 0, .const "C"⟩
    (Relation.TransGen.single ⟨.str "b", .str "C", by decide⟩)
  refine ⟨hmain.1, ?_⟩
  exact hmain.2 ⟨[[]], []⟩ ⟨[[("m", JRef.str "WARN")]], []⟩
    ⟨.str "a", 0, .const "P"⟩ ⟨.str "a", 0, .const "P"⟩
    [("m", JRef.str "WARN")] rfl (by decide) (by decide) (by decide)
    ⟨.str "m", 0, .const "X"⟩ (.str "WARN") rfl (by decide)

/-- C3 counterexample: the claim predicts `InvalidArgument` for any mapping
with an unrecognized value, but a numeric value (here the rank 2, which is
not a recognized level name) makes validation raise a `TypeError` from
calling `toUpperCase` on it instead. -/
theorem c3_counterexample :
    Log.setLevels ⟨[[]], []⟩ ⟨.str "m", 0, .const "c"⟩
      [("a", JRef.str "WARN"), ("x", JRef.num 2)] =
      .error (.typeError "toUpperCase is not a function") := by decide

/-- C3 amended: when every value of the mapping is a string and some value
is not a recognized level name, `setLevels` fails with `InvalidArgument`
before touching the table (validation only reads, so the shared table is
unchanged; non-string values instead fail with a `TypeError`, see C10);
when `setLevels` succeeds, it returns the instance, leaves components
untouched, and merges every key into the shared table by overwrite: updated
keys read back their new values and all other keys are unchanged. -/
theorem c3_amended_validate_then_merge :
    (∀ (h : Heap) (l : Log) (upd : LevelTable),
      (∀ p ∈ upd, ∃ s, p.2 = JRef.str s) →
      (∃ p ∈ upd, ∃ s, p.2 = JRef.str s ∧
        LOG_LEVEL_NAMES.contains (jsToUpper s) = false) →
      Log.setLevels h l upd =
        .error (.invalidArgument INVALID_LOG_LEVEL_MESSAGE)) ∧
    (∀ (h h' : Heap) (l l' : Log) (upd : LevelTable),
      Log.setLevels h l upd = .ok (h', l') →
      l' = l ∧ h'.components = h.components ∧
      h' = h.assignTables l.tableRef upd ∧
      (l.tableRef < h.tables.length → (upd.map Prod.fst).Nodup →
        (∀ k v, (k, v) ∈ upd →
          lookupTable (h'.tableAt l.tableRef) k = some v) ∧
        (∀ k, k ∉ upd.map Prod.fst →
          lookupTable (h'.tableAt l.tableRef) k =
            lookupTable (h.tableAt l.tableRef) k))) := by
  constructor
  · intro h l upd hstr hbad
    unfold Log.setLevels
    rw [validateLogLevels_allStrings_bad upd hstr hbad]
  · intro h h' l l' upd hs
    obtain ⟨hval, hl', hh'⟩ := setLevels_ok_inv _ _ _ _ _ hs
    have hcomp : h'.components = h.components := by rw [hh']; rfl
    refine ⟨hl', hcomp, hh', ?_⟩
    intro hlen hnd
    have hT : h'.tableAt l.tableRef =
        objectAssign (h.tableAt l.tableRef) upd := by
      rw [hh']
      unfold Heap.assignTables Heap.tableAt
      exact listGetD_listSet_self _ _ _ _ hlen
    constructor
    · intro k v hm
      rw [hT]
      exact lookupTable_objectAssign_mem upd _ _ _ hnd hm
    · intro k hk
      rw [hT]
      exact lookupTable_objectAssign_not_mem upd _ _ hk

/-- C3 witness: a mapping of strings with one bad name fails atomically
with the invalid-level error, and a successful merge makes the new entry
readable in the shared table. -/
theorem c3_witness :
    Log.setLevels ⟨[[]], []⟩ ⟨.str "m", 0, .const "c"⟩
      [("a", JRef.str "WARN"), ("x", JRef.str "nope")] =
      .error (.invalidArgument INVALID_LOG_LEVEL_MESSAGE) ∧
    lookupTable ((⟨[[("m", JRef.str "WARN")]], []⟩ : Heap).tableAt 0) "m" =
      some (JRef.str "WARN") := by
  constructor
  · apply c3_amended_validate_then_merge.1
    · intro p hp
      rcases List.mem_cons.mp hp with rfl | hp'
      · exact ⟨"WARN", rfl⟩
      · rw [List.mem_singleton] at hp'
        subst hp'
        exact ⟨"nope", rfl⟩
    · exact ⟨("x", JRef.str "nope"), by decide, "nope", rfl, by decide⟩
  · exact ((c3_amended_validate_then_merge.2 ⟨[[]], []⟩
      ⟨[[("m", JRef.str "WARN")]], []⟩ ⟨.str "m", 0, .const "c"⟩
      ⟨.str "m", 0, .const "c"⟩ [("m", JRef.str "WARN")]
      (by decide)).2.2.2 (by decide) (by decide)).1 "m" (JRef.str "WARN")
      (by decide)

/-- C6 counterexample: with a truthy non-string module name and a falsy
component, construction fails with the module-name error, not the
"component is required" error the claim promises for every falsy
component. -/
theorem c6_counterexample :
    Log.new ⟨[], []⟩ (.num 5) (.num 0) .undef =
      .error (.invalidArgument "module name is not a string") := by decide

/-- C6 amended: the module-name check runs first, so a truthy non-string
module name always fails with "module name is not a string"; a falsy
component fails with "component is required" provided the module name
passes its check; and with a truthy component and a passing module name
construction never fails with either of those two errors. -/
theorem c6_amended_check_order :
    (∀ (h : Heap) (mn comp lv : JRef),
      jsTypeof mn ≠ "string" → truthy mn = true →
      Log.new h mn comp lv =
        .error (.invalidArgument "module name is not a string")) ∧
    (∀ (h : Heap) (mn comp lv : JRef),
      (jsTypeof mn = "string" ∨ truthy mn = false) → truthy comp = false →
      Log.new h mn comp lv =
        .error (.invalidArgument "component is required")) ∧
    (∀ (h : Heap) (mn comp lv : JRef),
      (jsTypeof mn = "string" ∨ truthy mn = false) → truthy comp = true →
      Log.new h mn comp lv ≠
        .error (.invalidArgument "module name is not a string") ∧
      Log.new h mn comp lv ≠
        .error (.invalidArgument "component is required")) := by
  refine ⟨?_, ?_, ?_⟩
  · intro h mn comp lv ha hb
    exact new_badModuleName h mn comp lv ⟨ha, hb⟩
  · intro h mn comp lv hmn hcomp
    exact new_noComponent h mn comp lv (checks_neg1 mn hmn) hcomp
  · intro h mn comp lv hmn hcomp
    by_cases hobj : jsTypeof lv ≠ "object"
    · rw [new_nonObject h mn comp lv hmn hcomp hobj]
      exact ⟨fun hh => Except.noConfusion hh, fun hh => Except.noConfusion hh⟩
    · cases lv with
      | objTable r =>
        rw [new_objTable h mn comp r hmn hcomp]
        unfold Log.finishNew
        cases hv : validateLogLevels (h.tableAt r) with
        | error e =>
          rcases validateLogLevels_error_shape _ _ hv with he | ⟨m, he⟩
          · subst he
            constructor
            · intro hh
              exact absurd (JsError.invalidArgument.inj (Except.error.inj hh))
                (by decide)
            · intro hh
              exact absurd (JsError.invalidArgument.inj (Except.error.inj hh))
                (by decide)
          · subst he
            exact ⟨fun hh => JsError.noConfusion (Except.error.inj hh),
                   fun hh => JsError.noConfusion (Except.error.inj hh)⟩
        | ok x =>
          exact ⟨fun hh => Except.noConfusion hh,
                 fun hh => Except.noConfusion hh⟩
      | nullV =>
        rw [new_null h mn comp hmn hcomp]
        exact ⟨fun hh => JsError.noConfusion (Except.error.inj hh),
               fun hh => JsError.noConfusion (Except.error.inj hh)⟩
      | objComp c =>
        rw [new_objComp h mn comp c hmn hcomp]
        exact ⟨fun hh => JsError.noConfusion (Except.error.inj hh),
               fun hh => JsError.noConfusion (Except.error.inj hh)⟩
      | undef => exact absurd (by decide) hobj
      | str s => exact absurd (by simp [jsTypeof]) hobj
      | num n => exact absurd (by simp [jsTypeof]) hobj
      | boolV b => exact absurd (by simp [jsTypeof]) hobj

/-- C6 witness: the three amended clauses at concrete inputs. -/
theorem c6_witness :
    Log.new ⟨[], []⟩ (.num 5) (.str "c") (.num 3) =
      .error (.invalidArgument "module name is not a string") ∧
    Log.new ⟨[], []⟩ (.str "m") (.num 0) (.num 3) =
      .error (.invalidArgument "component is required") ∧
    (Log.new ⟨[], []⟩ (.str "m") (.str "c") (.num 3) ≠
      .error (.invalidArgument "module name is not a string") ∧
     Log.new ⟨[], []⟩ (.str "m") (.str "c") (.num 3) ≠
      .error (.invalidArgument "component is required")) :=
  ⟨c6_amended_check_order.1 _ _ _ _ (by decide) (by decide),
   c6_amended_check_order.2.1 _ _ _ _ (Or.inl (by decide)) (by decide),
   c6_amended_check_order.2.2 _ _ _ _ (Or.inl (by decide)) (by decide)⟩

/-- C7 counterexample: with the module's level set to OFF, `throwError`
still raises the error but logs nothing at all (zero sink calls), against
the claim that it always logs exactly one ERROR-level message. -/
theorem c7_counterexample :
    Log.throwFn ⟨[[("m", JRef.str "OFF")]], []⟩ ⟨.str "m", 0, .const "c"⟩
      "2020-01-02T03:04:05.000Z" ⟨"boom", false⟩ "custom" =
      ([], .userError "boom" false) := by decide

/-- C7 amended: `throwError` never returns normally; it makes one `log`
call at ERROR rank, which emits exactly one ERROR-sink message when the
effective level is at most ERROR and nothing otherwise; the raised error is
the clone carrying the custom message when the error exposes the clone
capability, and the original error unmodified otherwise. -/
theorem c7_amended_throw (h : Heap) (l : Log) (now d t : String)
    (e : UserError) (m : String) (L : Int) (ec : UserError)
    (heff : Log.logLevel h l = .ok (.int L))
    (hsplit : jsSplitOnT now = [d, t])
    (hec : ec = if e.cloneable then e.cloneWith m else e) :
    Log.throwFn h l now e m =
      ((if L ≤ Log.ERROR then
        [⟨Log.ERROR.toNat, ([d, t, "|", "ERROR", "in",
          Log.name h l ++ ":"]).map LogArg.str ++ [.err ec]⟩]
      else []),
      .userError ec.message ec.cloneable) := by
  subst hec
  simp only [Log.throwFn]
  rw [log_eval h l now Log.ERROR ⟨"ERROR"⟩ L
    [.err (if e.cloneable then e.cloneWith m else e)] (by decide) heff]
  rw [hsplit]
  rfl

/-- C7 witness: a cloneable error at effective level DEBUG is cloned with
the custom message, logged once through the ERROR sink, and raised. -/
theorem c7_witness :
    Log.throwFn ⟨[[("m", JRef.str "DEBUG")]], []⟩ ⟨.str "m", 0, .const "c"⟩
      "2020-01-02T03:04:05.000Z" ⟨"boom", true⟩ "custom" =
      ([⟨3, [.str "2020-01-02", .str "03:04:05.000Z", .str "|",
        .str "ERROR", .str "in", .str "c:", .err ⟨"custom", true⟩]⟩],
       .userError "custom" true) := by
  have hmain := c7_amended_throw ⟨[[("m", JRef.str "DEBUG")]], []⟩
    ⟨.str "m", 0, .const "c"⟩ "2020-01-02T03:04:05.000Z" "2020-01-02"
    "03:04:05.000Z" ⟨"boom", true⟩ "custom" 0 ⟨"custom", true⟩
    (by decide) (by decide) (by decide)
  exact hmain

/-- C8 counterexample: the `name` getter captures the component's
`toString` function, not its result: for a component whose `toString` reads
a mutable field, mutating the field after construction changes what `name`
returns, so `name` does not always yield the construction-time string. -/
theorem c8_counterexample :
    Log.new ⟨[[]], [⟨"A", .fieldRead⟩]⟩ (.str "m") (.objComp 0)
        (.objTable 0) =
      .ok (⟨[[]], [⟨"A", .fieldRead⟩]⟩, ⟨.str "m", 0, .viaField 0⟩) ∧
    Log.name ⟨[[]], [⟨"A", .fieldRead⟩]⟩ ⟨.str "m", 0, .viaField 0⟩ = "A" ∧
    Log.name (Heap.setField ⟨[[]], [⟨"A", .fieldRead⟩]⟩ 0 "B")
      ⟨.str "m", 0, .viaField 0⟩ = "B" := by decide

/-- C8 amended: `name` evaluates the `toString` function captured (with its
receiver) at construction time: reassigning the component's `toString`
after construction never changes `name`, and when the captured function
returns a fixed string, `name` is that construction-time string against
every heap; but the captured function runs on each read, so component state
it reads is read live. -/
theorem c8_amended_name_captures_function (h h' : Heap) (mn comp lv : JRef)
    (l : Log) (c : Nat) (f : ToStrFn)
    (_hnew : Log.new h mn comp lv = .ok (h', l)) :
    Log.name (h'.setToStr c f) l = Log.name h' l ∧
    (∀ s, l.nameGetter = .const s → ∀ h'' : Heap, Log.name h'' l = s) := by
  constructor
  · cases hg : l.nameGetter with
    | const s =>
      unfold Log.name
      rw [hg]
      rfl
    | viaField c' =>
      unfold Log.name
      rw [hg]
      simp only [readName, Heap.setToStr]
      exact listGetD_listSet_field h'.components c c' f default
  · intro s hg h''
    unfold Log.name
    rw [hg]
    rfl

/-- C8 witness: reassigning the captured component's `toString` leaves
`name` unchanged, and a string component's captured name stays fixed. -/
theorem c8_witness :
    Log.name ((⟨[[]], [⟨"A", ToStrFn.fieldRead⟩]⟩ : Heap).setToStr 0
        (.constStr "Z")) ⟨.str "m", 0, .viaField 0⟩ =
      Log.name (⟨[[]], [⟨"A", ToStrFn.fieldRead⟩]⟩ : Heap)
        ⟨.str "m", 0, .viaField 0⟩ ∧
    Log.name ⟨[[]], []⟩ ⟨.str "x", 0, .const "C"⟩ = "C" := by
  constructor
  · exact (c8_amended_name_captures_function ⟨[[]], [⟨"A", .fieldRead⟩]⟩
      ⟨[[]], [⟨"A", .fieldRead⟩]⟩ (.str "m") (.objComp 0) (.objTable 0)
      ⟨.str "m", 0, .viaField 0⟩ 0 (.constStr "Z") (by decide)).1
  · exact (c8_amended_name_captures_function ⟨[[]], []⟩ ⟨[[]], []⟩
      (.str "x") (.str "C") (.objTable 0) ⟨.str "x", 0, .const "C"⟩ 0
      .fieldRead (by decide)).2 "C" rfl ⟨[[]], []⟩

/-- C9 counterexample: a `null` levels argument has `typeof` "object", so
it is not defaulted; `Object.keys(null)` then raises a `TypeError` and
construction fails, against the claim that null is defaulted to an empty
mapping and construction succeeds. -/
theorem c9_counterexample :
    Log.new ⟨[], []⟩ (.str "m") (.str "c") .nullV =
      .error (.typeError "Cannot convert undefined or null to object") := by
  decide

/-- C9 amended: a levels argument whose `typeof` is not "object" (numbers,
strings, booleans, undefined/absent) is replaced by a fresh empty mapping
and construction succeeds for any valid module name and truthy component,
with the instance's effective level resolving to the process-wide default;
`null`, whose `typeof` is "object", instead makes construction fail with a
`TypeError`. -/
theorem c9_amended_default_levels (h : Heap) (mn comp lv : JRef)
    (hmn : jsTypeof mn = "string" ∨ truthy mn = false)
    (hcomp : truthy comp = true) (hlv : jsTypeof lv ≠ "object") :
    (∃ l : Log, Log.new h mn comp lv =
        .ok ({ h with tables := h.tables ++ [[]] }, l) ∧
      Log.logLevel { h with tables := h.tables ++ [[]] } l =
        Log.getLevelByName (.str DEFAULT_LOG_LEVEL)) ∧
    Log.new h mn comp .nullV =
      .error (.typeError "Cannot convert undefined or null to object") := by
  constructor
  · refine ⟨⟨mn, h.tables.length,
      captureNameGetter { h with tables := h.tables ++ [[]] } comp⟩,
      new_nonObject h mn comp lv hmn hcomp hlv, ?_⟩
    apply logLevel_empty_table
    unfold Heap.tableAt
    exact listGetD_append_length _ _ _
  · exact new_null h mn comp hmn hcomp

/-- C9 witness: constructing with the number 3 as levels succeeds with a
fresh empty table and the default effective level; constructing with null
raises a TypeError. -/
theorem c9_witness :
    (∃ l : Log, Log.new ⟨[], []⟩ (.str "x") (.str "c") (.num 3) =
        .ok (⟨[[]], []⟩, l) ∧
      Log.logLevel ⟨[[]], []⟩ l =
        Log.getLevelByName (.str DEFAULT_LOG_LEVEL)) ∧
    Log.new ⟨[], []⟩ (.str "x") (.str "c") .nullV =
      .error (.typeError "Cannot convert undefined or null to object") :=
  c9_amended_default_levels ⟨[], []⟩ (.str "x") (.str "c") (.num 3)
    (Or.inl (by decide)) (by decide) (by decide)

/-- C10: a non-string value reached by validation (all earlier entries
valid strings) makes `setLevels` and construction fail with a `TypeError`
from calling `toUpperCase` on that value, not with the `InvalidArgument`
error listing the valid level names; and whenever validation produces the
`InvalidArgument` failure, the failing entry is string-valued. -/
theorem c10_nonstring_levels_typeerror :
    (∀ (h : Heap) (l : Log) (pre : LevelTable) (k : String) (v : JRef)
      (rest : LevelTable),
      (∀ p ∈ pre, ∃ s, p.2 = JRef.str s ∧
        LOG_LEVEL_NAMES.contains (jsToUpper s) = true) →
      (∀ s, v ≠ JRef.str s) →
      ∃ m, Log.setLevels h l (pre ++ (k, v) :: rest) =
        .error (.typeError m)) ∧
    (∀ (h : Heap) (mn comp : JRef) (r : Nat) (pre : LevelTable) (k : String)
      (v : JRef) (rest : LevelTable),
      (jsTypeof mn = "string" ∨ truthy mn = false) → truthy comp = true →
      h.tableAt r = pre ++ (k, v) :: rest →
      (∀ p ∈ pre, ∃ s, p.2 = JRef.str s ∧
        LOG_LEVEL_NAMES.contains (jsToUpper s) = true) →
      (∀ s, v ≠ JRef.str s) →
      ∃ m, Log.new h mn comp (.objTable r) = .error (.typeError m)) ∧
    (∀ (levels : LevelTable) (m : String),
      validateLogLevels levels = .error (.invalidArgument m) →
      ∃ pre k s rest, levels = pre ++ (k, JRef.str s) :: rest ∧
        LOG_LEVEL_NAMES.contains (jsToUpper s) = false) := by
  refine ⟨?_, ?_, validateLogLevels_invalidArgument_string⟩
  · intro h l pre k v rest hpre hv
    obtain ⟨m, hm⟩ := validateLogLevels_nonstring pre k v rest hpre hv
    refine ⟨m, ?_⟩
    unfold Log.setLevels
    rw [hm]
  · intro h mn comp r pre k v rest hmn hcomp htab hpre hv
    obtain ⟨m, hm⟩ := validateLogLevels_nonstring pre k v rest hpre hv
    refine ⟨m, ?_⟩
    rw [new_objTable h mn comp r hmn hcomp]
    unfold Log.finishNew
    rw [htab, hm]

/-- C10 witness: the numeric value 2 after a valid entry raises a TypeError
through `setLevels` and through construction, and a failing string entry is
what produces the InvalidArgument error. -/
theorem c10_witness :
    (∃ m, Log.setLevels ⟨[[]], []⟩ ⟨.str "m", 0, .const "c"⟩
        ([("a", JRef.str "WARN")] ++ ("x", JRef.num 2) :: []) =
      .error (.typeError m)) ∧
    (∃ m, Log.new ⟨[[("x", JRef.num 2)]], []⟩ (.str "m") (.str "c")
        (.objTable 0) = .error (.typeError m)) ∧
    (∃ pre k s rest,
      ([("x", JRef.str "nope")] : LevelTable) =
        pre ++ (k, JRef.str s) :: rest ∧
      LOG_LEVEL_NAMES.contains (jsToUpper s) = false) := by
  refine ⟨?_, ?_, ?_⟩
  · apply c10_nonstring_levels_typeerror.1
    · intro p hp
      rw [List.mem_singleton] at hp
      subst hp
      exact ⟨"WARN", rfl, by decide⟩
    · intro s hne
      exact JRef.noConfusion hne
  · apply c10_nonstring_levels_typeerror.2.1 _ _ _ 0
      ([] : LevelTable) "x" (JRef.num 2) ([] : LevelTable)
      (Or.inl (by decide)) (by decide) (by decide)
    · intro p hp
      cases hp
    · intro s hne
      exact JRef.noConfusion hne
  · exact c10_nonstring_levels_typeerror.2.2
      [("x", JRef.str "nope")] INVALID_LOG_LEVEL_MESSAGE (by decide)
